import Mathlib

/-!
Verification of the process-orchestration / JSON-RPC transport runtime of
proyecto1-redes.

The development shallowly embeds the relevant source modules:

* the stdio framing codec (NDJSON and Content-Length "LSP" framing) from the
  server transport module (`attachToStdio`: `writeMessage`, `tryDrainNdjson`,
  `tryDrainLsp`, `onData`);
* the client-side MCP process registry (`ServerProcess`: `_handleRpcMessage`,
  `rpc`, the exit handler, the handshake barrier);
* the MCP server dispatcher and manifest loader (`createServer.js`:
  `callTool`, `handleRequest`; `manifest.js`: `loadManifest`).

Byte streams are modelled as `List Char`, where each `Char` stands for one
byte of the stream (all protocol syntax involved is ASCII, and the codec is
byte-transparent in message bodies).  JavaScript strings/JSON values are
modelled by `JVal`; fallible JS code returns `Except`/`Option`.
-/

/-- JSON values, as produced by `JSON.parse` / consumed by `JSON.stringify`.
Numbers are modelled as integers (all numbers relevant to the claims are
integral: JSON-RPC ids and error codes). -/
inductive JVal where
  | null
  | bool (b : Bool)
  | num (n : Int)
  | str (s : String)
  | arr (elems : List JVal)
  | obj (fields : List (String × JVal))

/-- JavaScript truthiness of a `JVal` (`Boolean(v)`): `null`, `false`, `0`
and `""` are falsy; objects and arrays are always truthy. -/
def JVal.truthy : JVal → Bool
  | .null => false
  | .bool b => b
  | .num n => n != 0
  | .str s => s ≠ ""
  | .arr _ => true
  | .obj _ => true

/-- The JS `a || b` idiom on an optional string (`undefined`/`""` fall back
to the default). -/
def jsOrStr (a : Option String) (d : String) : String :=
  match a with
  | some s => if s = "" then d else s
  | none => d

/-- The JS `a || b` idiom on an optional number (`undefined`/`0` fall back
to the default), as used for `t.timeout_ms || limits.timeout_ms_default || 12000`. -/
def jsOrNat (a : Option Nat) (d : Nat) : Nat :=
  match a with
  | some n => if n = 0 then d else n
  | none => d

/-- A JavaScript `Error` as thrown/caught by the runtime: a message plus the
optional `code` / `data` fields the code attaches to it. -/
structure JsErr where
  code : Option Int
  message : String
  data : Option JVal

namespace Codec

/-! ## Framing codec (server transport module)

Embeds the stdio transport: NDJSON line reassembly (`tryDrainNdjson`),
LSP `Content-Length` framing (`writeMessage`, `tryDrainLsp`) and the
framing auto-detection in `onData`. -/

/-- The whitespace class removed by JS `String.prototype.trim` (ASCII part:
space, tab, LF, VT, FF, CR). -/
def isJsWs (c : Char) : Bool :=
  c = ' ' || c = '\t' || c = '\n' || c = '\r' || c = Char.ofNat 11 || c = Char.ofNat 12

/-- JS `line.trim()` on a character list: strip leading and trailing
whitespace. -/
def jsTrim (s : List Char) : List Char :=
  ((s.dropWhile isJsWs).reverse.dropWhile isJsWs).reverse

/-- `buffer.indexOf('\n')` followed by the two `slice`s of the NDJSON drain
loop: split the buffer at its first newline, or `none` if there is none. -/
def breakNl : List Char → Option (List Char × List Char)
  | [] => none
  | c :: cs =>
    if c = '\n' then some ([], cs)
    else (breakNl cs).map (fun p => (c :: p.1, p.2))

theorem breakNl_rest_length {buf l r : List Char} (h : breakNl buf = some (l, r)) :
    r.length < buf.length := by
  induction buf generalizing l r with
  | nil => simp [breakNl] at h
  | cons c cs ih =>
    simp only [breakNl] at h
    split at h
    · cases h
      simp only [List.length_cons]
      omega
    · cases hb : breakNl cs with
      | none => rw [hb] at h; simp at h
      | some p =>
        rw [hb] at h
        simp only [Option.map_some', Option.some.injEq, Prod.mk.injEq] at h
        obtain ⟨h1, h2⟩ := h
        subst h2
        simp only [List.length_cons]
        exact Nat.lt_succ_of_lt (ih (by rw [hb]))

/-- The NDJSON drain loop of the transport: repeatedly extract everything up
to the next `\n`, trim it, skip blank lines, and emit the remaining lines in
order; the leftover (newline-free) tail stays in the buffer.  Returns
(emitted lines, new buffer). -/
def tryDrainNdjson (buf : List Char) : List (List Char) × List Char :=
  match h : breakNl buf with
  | none => ([], buf)
  | some (line, rest) =>
    let p := tryDrainNdjson rest
    (if (jsTrim line).isEmpty then p.1 else jsTrim line :: p.1, p.2)
termination_by buf.length
decreasing_by exact breakNl_rest_length h

theorem tryDrainNdjson_of_none {buf : List Char} (h : breakNl buf = none) :
    tryDrainNdjson buf = ([], buf) := by
  rw [tryDrainNdjson]
  split
  · rfl
  · rename_i line rest heq
    rw [h] at heq
    exact absurd heq (by simp)

theorem tryDrainNdjson_of_some {buf line rest : List Char}
    (h : breakNl buf = some (line, rest)) :
    tryDrainNdjson buf =
      (if (jsTrim line).isEmpty then (tryDrainNdjson rest).1
       else jsTrim line :: (tryDrainNdjson rest).1, (tryDrainNdjson rest).2) := by
  rw [tryDrainNdjson]
  split
  · rename_i heq
    rw [h] at heq
    exact absurd heq (by simp)
  · rename_i l' r' heq
    rw [h] at heq
    simp only [Option.some.injEq, Prod.mk.injEq] at heq
    obtain ⟨h1, h2⟩ := heq
    subst h1
    subst h2
    rfl

theorem breakNl_append_none {a : List Char} (b : List Char) (h : breakNl a = none) :
    breakNl (a ++ b) = (breakNl b).map (fun p => (a ++ p.1, p.2)) := by
  induction a with
  | nil =>
    simp only [List.nil_append]
    cases hb : breakNl b with
    | none => simp [hb]
    | some p => simp [hb]
  | cons c cs ih =>
    simp only [breakNl] at h
    split at h
    · simp at h
    · rename_i hc
      cases hb : breakNl cs with
      | none =>
        rw [List.cons_append]
        simp only [breakNl, if_neg hc]
        rw [ih hb]
        cases hbb : breakNl b with
        | none => simp
        | some p => simp
      | some p => rw [hb] at h; simp at h

theorem breakNl_append_some {a l r : List Char} (b : List Char)
    (h : breakNl a = some (l, r)) :
    breakNl (a ++ b) = some (l, r ++ b) := by
  induction a generalizing l r with
  | nil => simp [breakNl] at h
  | cons c cs ih =>
    simp only [breakNl] at h
    split at h
    · cases h
      simp only [List.cons_append, breakNl]
      simp [*]
    · rename_i hc
      cases hb : breakNl cs with
      | none => rw [hb] at h; simp at h
      | some p =>
        rw [hb] at h
        obtain ⟨l', r'⟩ := p
        simp only [Option.map_some', Option.some.injEq, Prod.mk.injEq] at h
        obtain ⟨h1, h2⟩ := h
        subst h2
        rw [List.cons_append]
        simp only [breakNl, if_neg hc]
        rw [ih (l := l') (r := r') (by rw [hb])]
        simp [← h1]

/-- Draining `a ++ b` is the same as draining `a`, then draining its leftover
followed by `b`: the drain loop is insensitive to where the buffer was
extended. -/
theorem tryDrainNdjson_append (a b : List Char) :
    tryDrainNdjson (a ++ b) =
      ((tryDrainNdjson a).1 ++ (tryDrainNdjson ((tryDrainNdjson a).2 ++ b)).1,
       (tryDrainNdjson ((tryDrainNdjson a).2 ++ b)).2) := by
  generalize hn : a.length = n
  induction n using Nat.strong_induction_on generalizing a b with
  | _ n ih =>
    cases hb : breakNl a with
    | none =>
      rw [tryDrainNdjson_of_none hb]
      simp
    | some p =>
      obtain ⟨line, rest⟩ := p
      have ha := tryDrainNdjson_of_some hb
      have hab := tryDrainNdjson_of_some (breakNl_append_some b hb)
      have hrest := ih rest.length (hn ▸ breakNl_rest_length hb) rest b rfl
      rw [hab, hrest, ha]
      by_cases ht : (jsTrim line).isEmpty <;> simp [ht]

/-- Exact match of `pat` at the start of a list. -/
def beginsWith : List Char → List Char → Bool
  | [], _ => true
  | _ :: _, [] => false
  | p :: ps, c :: cs => p = c && beginsWith ps cs

/-- `s.includes(pat)`: does `pat` occur contiguously anywhere in the list? -/
def containsSeq (pat : List Char) : List Char → Bool
  | [] => beginsWith pat []
  | c :: cs => beginsWith pat (c :: cs) || containsSeq pat cs

/-- ASCII lower-casing, for the case-insensitive (`/i`) regex matches. -/
def lowerAscii (c : Char) : Char :=
  if 'A' ≤ c && c ≤ 'Z' then Char.ofNat (c.toNat + 32) else c

/-- Case-insensitive match of `pat` at the start of a list (ASCII). -/
def beginsWithCI : List Char → List Char → Bool
  | [], _ => true
  | _ :: _, [] => false
  | p :: ps, c :: cs => lowerAscii p = lowerAscii c && beginsWithCI ps cs

/-- The literal of the `Content-Length` header matches (lower-cased). -/
def clPat : List Char := "content-length:".toList

/-- The header/body separator `\r\n\r\n`. -/
def crlf2 : List Char := ['\r', '\n', '\r', '\n']

/-- The test `/^\s*Content-Length:/i.test(s)` of the framing auto-detector. -/
def beginsWsContentLength (s : List Char) : Bool :=
  beginsWithCI clPat (s.dropWhile isJsWs)

/-- The framing auto-detector of `onData`: the first chunk selects LSP framing
iff it starts (after whitespace) with `Content-Length:` or contains
`\r\n\r\n`; otherwise NDJSON. -/
def detectLsp (chunk : List Char) : Bool :=
  beginsWsContentLength chunk || containsSeq crlf2 chunk

def isDigit (c : Char) : Bool := '0' ≤ c && c ≤ '9'

/-- `parseInt(run, 10)` on a run of decimal digit characters. -/
def digitsToNat (ds : List Char) : Nat :=
  ds.foldl (fun a c => 10 * a + (c.toNat - 48)) 0

/-- The regex `/Content-Length:\s*(\d+)/i` attempted at the start of `s`:
match the literal case-insensitively, skip whitespace, then require at least
one digit and read the digit run. -/
def clNumAt (s : List Char) : Option Nat :=
  if beginsWithCI clPat s then
    let ds := ((s.drop clPat.length).dropWhile isJsWs).takeWhile isDigit
    if ds.isEmpty then none else some (digitsToNat ds)
  else none

/-- The regex `/Content-Length:\s*(\d+)/i.exec(headerPart)`: scan left to
right for the first position where the whole pattern matches, returning the
parsed length. -/
def contentLengthOf : List Char → Option Nat
  | [] => none
  | c :: cs =>
    match clNumAt (c :: cs) with
    | some n => some n
    | none => contentLengthOf cs

/-- `lspBuffer.indexOf('\r\n\r\n')`. -/
def findCrlf2 : List Char → Option Nat
  | [] => none
  | c :: cs => if beginsWith crlf2 (c :: cs) then some 0 else (findCrlf2 cs).map (· + 1)

theorem findCrlf2_pos {buf : List Char} {i : Nat} (h : findCrlf2 buf = some i) :
    0 < buf.length := by
  cases buf with
  | nil => simp [findCrlf2] at h
  | cons c cs => simp

/-- The LSP drain loop of the transport: find the `\r\n\r\n` separating the
headers from the body; read `Content-Length` from the preceding header (a
header without one is dropped and scanning continues); wait until
header+body are fully buffered; slice the exact body out and loop for
pipelined frames.  Returns (extracted frame bodies, new buffer); each body is
then handed to `JSON.parse` (failures logged and discarded). -/
def tryDrainLsp (buf : List Char) : List (List Char) × List Char :=
  match h : findCrlf2 buf with
  | none => ([], buf)
  | some headerEnd =>
    match contentLengthOf (buf.take headerEnd) with
    | none => tryDrainLsp (buf.drop (headerEnd + 4))
    | some len =>
      if buf.length < headerEnd + 4 + len then ([], buf)
      else
        let body := (buf.drop (headerEnd + 4)).take len
        let p := tryDrainLsp (buf.drop (headerEnd + 4 + len))
        (body :: p.1, p.2)
termination_by buf.length
decreasing_by
· have := findCrlf2_pos h
  simp only [List.length_drop]
  omega
· have := findCrlf2_pos h
  simp only [List.length_drop]
  omega

inductive Framing where
  | unknown
  | ndjson
  | lsp
deriving DecidableEq

/-- The per-channel codec state of `attachToStdio`: the detected framing
(fixed after the first chunk) and the two reassembly buffers. -/
structure CodecState where
  framing : Framing
  ndjsonBuffer : List Char
  lspBuffer : List Char
deriving DecidableEq

/-- The state before any data has arrived. -/
def initState : CodecState := ⟨.unknown, [], []⟩

/-- The `onData` handler: on the first chunk detect the framing, then append
the chunk to the corresponding buffer and drain it.  Returns the new state
and the payload strings extracted from the stream (NDJSON: trimmed non-blank
lines; LSP: frame bodies), each of which the transport hands to
`JSON.parse`. -/
def onData (st : CodecState) (chunk : List Char) : CodecState × List (List Char) :=
  let fr := if st.framing = .unknown
    then (if detectLsp chunk then Framing.lsp else Framing.ndjson)
    else st.framing
  match fr with
  | .lsp =>
    let p := tryDrainLsp (st.lspBuffer ++ chunk)
    ({ st with framing := .lsp, lspBuffer := p.2 }, p.1)
  | .ndjson =>
    let p := tryDrainNdjson (st.ndjsonBuffer ++ chunk)
    ({ st with framing := .ndjson, ndjsonBuffer := p.2 }, p.1)
  | .unknown => (st, [])

/-- Successive `data` events: feed each chunk through `onData`, collecting
the extracted payloads in order. -/
def feed (st : CodecState) : List (List Char) → CodecState × List (List Char)
  | [] => (st, [])
  | c :: cs =>
    let p := onData st c
    let q := feed p.1 cs
    (q.1, p.2 ++ q.2)

/-- The decoded message sequence a consumer observes: every extracted payload
is put through `JSON.parse` (modelled by the arbitrary parser `parse`), and
payloads that fail to parse are dropped. -/
def decodedMessages {α : Type} (parse : List Char → Option α)
    (st : CodecState) (chunks : List (List Char)) : List α :=
  ((feed st chunks).2).filterMap parse

theorem beginsWith_append {pat s : List Char} (t : List Char)
    (h : beginsWith pat s = true) : beginsWith pat (s ++ t) = true := by
  induction pat generalizing s with
  | nil => rfl
  | cons p ps ih =>
    cases s with
    | nil => simp [beginsWith] at h
    | cons c cs =>
      simp only [beginsWith, Bool.and_eq_true] at h ⊢
      exact ⟨h.1, ih h.2⟩

theorem containsSeq_mono {pat a : List Char} (b : List Char)
    (h : containsSeq pat a = true) : containsSeq pat (a ++ b) = true := by
  induction a with
  | nil =>
    simp only [containsSeq] at h
    cases pat with
    | nil =>
      cases b with
      | nil => rfl
      | cons x xs => simp [containsSeq, beginsWith]
    | cons p ps => simp [beginsWith] at h
  | cons c cs ih =>
    simp only [containsSeq, Bool.or_eq_true] at h
    rw [List.cons_append]
    simp only [containsSeq, Bool.or_eq_true]
    cases h with
    | inl h => exact Or.inl (beginsWith_append b h)
    | inr h => exact Or.inr (ih h)

theorem beginsWithCI_append {pat s : List Char} (t : List Char)
    (h : beginsWithCI pat s = true) : beginsWithCI pat (s ++ t) = true := by
  induction pat generalizing s with
  | nil => rfl
  | cons p ps ih =>
    cases s with
    | nil => simp [beginsWithCI] at h
    | cons c cs =>
      simp only [beginsWithCI, Bool.and_eq_true] at h ⊢
      exact ⟨h.1, ih h.2⟩

theorem beginsWsContentLength_mono {a : List Char} (b : List Char)
    (h : beginsWsContentLength a = true) :
    beginsWsContentLength (a ++ b) = true := by
  unfold beginsWsContentLength at h ⊢
  rw [List.dropWhile_append]
  cases hd : (a.dropWhile isJsWs).isEmpty
  · simp only [hd, Bool.false_eq_true, if_false]
    exact beginsWithCI_append b h
  · rw [List.isEmpty_iff] at hd
    rw [hd] at h
    simp [clPat, beginsWithCI] at h

theorem detectLsp_mono {a : List Char} (b : List Char)
    (h : detectLsp (a ++ b) = false) : detectLsp a = false := by
  unfold detectLsp at h ⊢
  simp only [Bool.or_eq_false_iff] at h ⊢
  refine ⟨?_, ?_⟩
  · by_contra hc
    rw [beginsWsContentLength_mono b (by revert hc; cases beginsWsContentLength a <;> simp)]
      at h
    simp at h
  · by_contra hc
    rw [containsSeq_mono b (by revert hc; cases containsSeq crlf2 a <;> simp)] at h
    simp at h

theorem tryDrainNdjson_rest_nonl (buf : List Char) :
    breakNl (tryDrainNdjson buf).2 = none := by
  generalize hn : buf.length = n
  induction n using Nat.strong_induction_on generalizing buf with
  | _ n ih =>
    cases hb : breakNl buf with
    | none => rw [tryDrainNdjson_of_none hb]; exact hb
    | some p =>
      obtain ⟨line, rest⟩ := p
      rw [tryDrainNdjson_of_some hb]
      exact ih rest.length (hn ▸ breakNl_rest_length hb) rest rfl

theorem onData_ndjson_state (nb lb chunk : List Char) :
    onData ⟨.ndjson, nb, lb⟩ chunk =
      (⟨.ndjson, (tryDrainNdjson (nb ++ chunk)).2, lb⟩,
       (tryDrainNdjson (nb ++ chunk)).1) := rfl

theorem onData_unknown_ndjson (nb lb chunk : List Char)
    (h : detectLsp chunk = false) :
    onData ⟨.unknown, nb, lb⟩ chunk =
      (⟨.ndjson, (tryDrainNdjson (nb ++ chunk)).2, lb⟩,
       (tryDrainNdjson (nb ++ chunk)).1) := by
  unfold onData
  simp [h]

/-- Feeding chunks to a channel already locked to NDJSON framing drains the
concatenation of the buffered tail and all the chunks. -/
theorem feed_ndjson (chunks : List (List Char)) : ∀ (nb lb : List Char),
    breakNl nb = none →
    feed ⟨.ndjson, nb, lb⟩ chunks =
      (⟨.ndjson, (tryDrainNdjson (nb ++ chunks.flatten)).2, lb⟩,
       (tryDrainNdjson (nb ++ chunks.flatten)).1) := by
  induction chunks with
  | nil =>
    intro nb lb hnb
    simp only [feed, List.flatten_nil, List.append_nil]
    rw [tryDrainNdjson_of_none hnb]
  | cons c cs ih =>
    intro nb lb hnb
    simp only [feed, onData_ndjson_state, List.flatten_cons]
    rw [ih (tryDrainNdjson (nb ++ c)).2 lb (tryDrainNdjson_rest_nonl (nb ++ c))]
    rw [← List.append_assoc, tryDrainNdjson_append (nb ++ c) cs.flatten]

/-- C4. For every byte stream whose content does not itself trip the LSP
framing auto-detector (in particular every well-formed NDJSON stream of
JSON-RPC messages: `JSON.stringify` output contains no raw CR/LF, so the
stream never contains `\r\n\r\n` and never starts with a `Content-Length:`
header) and every partition of the stream into chunks, feeding the chunks in
order through the codec produces exactly the same sequence of decoded
messages, in the same order, as feeding the entire stream as one chunk. -/
theorem ndjson_chunking_invariant {α : Type} (parse : List Char → Option α)
    (chunks : List (List Char))
    (h1 : containsSeq crlf2 chunks.flatten = false)
    (h2 : beginsWsContentLength chunks.flatten = false) :
    decodedMessages parse initState chunks
      = decodedMessages parse initState [chunks.flatten] := by
  have hdet : detectLsp chunks.flatten = false := by
    unfold detectLsp
    rw [h1, h2]
    rfl
  unfold decodedMessages
  congr 1
  show (feed initState chunks).2 = (feed initState [chunks.flatten]).2
  have rhs1 := onData_unknown_ndjson [] [] chunks.flatten hdet
  cases chunks with
  | nil =>
    simp only [List.flatten_nil] at rhs1
    show ([] : List (List Char)) = (feed initState [List.flatten []]).2
    simp only [List.flatten_nil, feed, initState, rhs1]
    simp [tryDrainNdjson_of_none (show breakNl [] = none from rfl)]
  | cons c cs =>
    have hdetc : detectLsp c = false := by
      have hj : c ++ cs.flatten = (c :: cs).flatten := by simp
      exact detectLsp_mono cs.flatten (by rw [hj]; exact hdet)
    have lhs1 := onData_unknown_ndjson [] [] c hdetc
    show (feed ⟨.unknown, [], []⟩ (c :: cs)).2 = (feed ⟨.unknown, [], []⟩ [(c :: cs).flatten]).2
    simp only [feed, lhs1, rhs1, initState]
    rw [feed_ndjson cs (tryDrainNdjson ([] ++ c)).2 []
        (tryDrainNdjson_rest_nonl ([] ++ c))]
    simp only [List.flatten_cons, List.nil_append, List.append_nil]
    rw [tryDrainNdjson_append c cs.flatten]

/-- Closed instance for `ndjson_chunking_invariant`: two lines split across
two chunks mid-line. -/
theorem ndjson_chunking_invariant_witness :
    containsSeq crlf2 (["abc\nde".toList, "f\n".toList].flatten) = false ∧
    beginsWsContentLength (["abc\nde".toList, "f\n".toList].flatten) = false ∧
    decodedMessages (fun l => some l) initState ["abc\nde".toList, "f\n".toList]
      = decodedMessages (fun l => some l) initState
          [(["abc\nde".toList, "f\n".toList]).flatten] := by
  exact ⟨by decide, by decide,
    ndjson_chunking_invariant (fun l => some l) ["abc\nde".toList, "f\n".toList]
      (by decide) (by decide)⟩

/-- The decimal digit character for a digit value (used for `${n}`). -/
def digitChar : Nat → Char
  | 0 => '0'
  | 1 => '1'
  | 2 => '2'
  | 3 => '3'
  | 4 => '4'
  | 5 => '5'
  | 6 => '6'
  | 7 => '7'
  | 8 => '8'
  | _ => '9'

/-- JS decimal rendering `${n}` of a natural number. -/
def natDecimal (n : Nat) : List Char :=
  if n = 0 then ['0'] else (Nat.digits 10 n).reverse.map digitChar

/-- The header literal written by `writeMessage` in LSP mode (before the
rendered length and the `\r\n\r\n`). -/
def clHeader : List Char := "Content-Length: ".toList

/-- `writeMessage` in LSP mode: `"Content-Length: " + body.length + "\r\n\r\n"`
followed by the JSON body bytes. -/
def writeMessageLsp (body : List Char) : List Char :=
  clHeader ++ natDecimal body.length ++ crlf2 ++ body

theorem digitChar_toNat {d : Nat} (h : d < 10) : (digitChar d).toNat = 48 + d := by
  interval_cases d <;> rfl

theorem isDigit_digitChar {d : Nat} (h : d < 10) : isDigit (digitChar d) = true := by
  interval_cases d <;> rfl

theorem isDigit_natDecimal (n : Nat) : ∀ c ∈ natDecimal n, isDigit c = true := by
  intro c hc
  unfold natDecimal at hc
  split at hc
  · simp at hc
    subst hc
    rfl
  · simp only [List.mem_map, List.mem_reverse] at hc
    obtain ⟨d, hd, rfl⟩ := hc
    exact isDigit_digitChar (Nat.digits_lt_base (by norm_num) hd)

theorem natDecimal_ne_nil (n : Nat) : natDecimal n ≠ [] := by
  unfold natDecimal
  split
  · simp
  · rename_i h
    simp only [ne_eq, List.map_eq_nil_iff, List.reverse_eq_nil_iff]
    exact Nat.digits_ne_nil_iff_ne_zero.2 h

theorem not_isJsWs_of_isDigit {c : Char} (h : isDigit c = true) : isJsWs c = false := by
  unfold isDigit at h
  simp only [Bool.and_eq_true, decide_eq_true_eq] at h
  obtain ⟨h1, h2⟩ := h
  unfold isJsWs
  simp only [Bool.or_eq_false_iff, decide_eq_false_iff_not]
  refine ⟨⟨⟨⟨⟨?_, ?_⟩, ?_⟩, ?_⟩, ?_⟩, ?_⟩ <;> rintro rfl <;> revert h1 h2 <;> decide

theorem not_cr_of_isDigit {c : Char} (h : isDigit c = true) : c ≠ '\r' := by
  intro hc
  subst hc
  simp [isDigit] at h

theorem digitsToNat_rev_map (l : List Nat) (h : ∀ d ∈ l, d < 10) :
    digitsToNat ((l.reverse).map digitChar) = Nat.ofDigits 10 l := by
  induction l with
  | nil => rfl
  | cons d ds ih =>
    simp only [List.reverse_cons, List.map_append, List.map_cons, List.map_nil]
    unfold digitsToNat
    rw [List.foldl_append]
    have hd : d < 10 := h d (by simp)
    have : digitsToNat (ds.reverse.map digitChar) = Nat.ofDigits 10 ds :=
      ih (fun x hx => h x (by simp [hx]))
    unfold digitsToNat at this
    simp only [List.foldl_cons, List.foldl_nil, this, digitChar_toNat hd,
      Nat.ofDigits_cons]
    omega

theorem digitsToNat_natDecimal (n : Nat) : digitsToNat (natDecimal n) = n := by
  unfold natDecimal
  split
  · rename_i h
    subst h
    rfl
  · rw [digitsToNat_rev_map _ (fun d hd => Nat.digits_lt_base (by norm_num) hd)]
    exact Nat.ofDigits_digits 10 n

theorem clNumAt_header (n : Nat) : clNumAt (clHeader ++ natDecimal n) = some n := by
  unfold clNumAt
  have hci : beginsWithCI clPat (clHeader ++ natDecimal n) = true :=
    beginsWithCI_append _ (by rfl)
  rw [hci]
  simp only [if_true]
  have hdrop : (clHeader ++ natDecimal n).drop clPat.length = ' ' :: natDecimal n := by
    have hlen : clPat.length = 15 := rfl
    rw [hlen, List.drop_append_of_le_length (by decide)]
    rfl
  rw [hdrop]
  have hds : List.dropWhile isJsWs (' ' :: natDecimal n) = natDecimal n := by
    rw [List.dropWhile_cons_of_pos (by rfl)]
    cases hnd : natDecimal n with
    | nil => rfl
    | cons c cs =>
      rw [List.dropWhile_cons_of_neg]
      rw [not_isJsWs_of_isDigit (isDigit_natDecimal n c (by rw [hnd]; simp))]
      simp
  rw [hds]
  have htk : List.takeWhile isDigit (natDecimal n) = natDecimal n :=
    List.takeWhile_eq_self_iff.2 (isDigit_natDecimal n)
  rw [htk]
  rw [if_neg (by simp [List.isEmpty_iff, natDecimal_ne_nil n])]
  rw [digitsToNat_natDecimal]

theorem contentLengthOf_header (n : Nat) :
    contentLengthOf (clHeader ++ natDecimal n) = some n := by
  have hcons : clHeader ++ natDecimal n = 'C' :: ("ontent-Length: ".toList ++ natDecimal n) := rfl
  rw [hcons]
  unfold contentLengthOf
  rw [← hcons, clNumAt_header n]

theorem beginsWith_same (l : List Char) : beginsWith l l = true := by
  induction l with
  | nil => rfl
  | cons c cs ih => simp [beginsWith, ih]

theorem findCrlf2_at_boundary (hd t : List Char)
    (h : ∀ c ∈ hd, c ≠ '\r') :
    findCrlf2 (hd ++ (crlf2 ++ t)) = some hd.length := by
  induction hd with
  | nil =>
    simp only [List.nil_append]
    have : crlf2 ++ t = '\r' :: ('\n' :: '\r' :: '\n' :: t) := rfl
    rw [this]
    unfold findCrlf2
    rw [← this, beginsWith_append t (beginsWith_same crlf2)]
    rfl
  | cons c cs ih =>
    rw [List.cons_append]
    unfold findCrlf2
    have hb : beginsWith crlf2 (c :: (cs ++ (crlf2 ++ t))) = false := by
      have hc : ('\r' = c) = False := by
        simp only [eq_iff_iff, iff_false]
        exact fun he => h c (by simp) he.symm
      simp [beginsWith, crlf2, hc]
    rw [hb]
    simp only [Bool.false_eq_true, if_false]
    rw [ih (fun x hx => h x (by simp [hx]))]
    rfl

theorem findCrlf2_none_of_noCr (hd t : List Char)
    (h : ∀ c ∈ hd, c ≠ '\r')
    (ht : t = [] ∨ t = ['\r'] ∨ t = ['\r', '\n'] ∨ t = ['\r', '\n', '\r']) :
    findCrlf2 (hd ++ t) = none := by
  induction hd with
  | nil =>
    simp only [List.nil_append]
    rcases ht with rfl | rfl | rfl | rfl <;> rfl
  | cons c cs ih =>
    rw [List.cons_append]
    unfold findCrlf2
    have hb : beginsWith crlf2 (c :: (cs ++ t)) = false := by
      have hc : ('\r' = c) = False := by
        simp only [eq_iff_iff, iff_false]
        exact fun he => h c (by simp) he.symm
      simp [beginsWith, crlf2, hc]
    rw [hb]
    simp only [Bool.false_eq_true, if_false]
    rw [ih (fun x hx => h x (by simp [hx]))]
    rfl

theorem tryDrainLsp_of_none {buf : List Char} (h : findCrlf2 buf = none) :
    tryDrainLsp buf = ([], buf) := by
  rw [tryDrainLsp]
  split
  · rfl
  · rename_i headerEnd heq
    rw [h] at heq
    exact absurd heq (by simp)

theorem tryDrainLsp_of_short {buf : List Char} {e len : Nat}
    (h : findCrlf2 buf = some e)
    (hc : contentLengthOf (buf.take e) = some len)
    (hlt : buf.length < e + 4 + len) :
    tryDrainLsp buf = ([], buf) := by
  rw [tryDrainLsp]
  split
  · rename_i heq
    simp [h] at heq
  · rename_i e' heq
    rw [h] at heq
    simp only [Option.some.injEq] at heq
    subst heq
    rw [hc]
    simp [hlt]

theorem tryDrainLsp_of_frame {buf : List Char} {e len : Nat}
    (h : findCrlf2 buf = some e)
    (hc : contentLengthOf (buf.take e) = some len)
    (hge : ¬ buf.length < e + 4 + len) :
    tryDrainLsp buf =
      (((buf.drop (e + 4)).take len) :: (tryDrainLsp (buf.drop (e + 4 + len))).1,
       (tryDrainLsp (buf.drop (e + 4 + len))).2) := by
  rw [tryDrainLsp]
  split
  · rename_i heq
    simp [h] at heq
  · rename_i e' heq
    rw [h] at heq
    simp only [Option.some.injEq] at heq
    subst heq
    rw [hc]
    simp [hge]

theorem not_cr_clHeader : ∀ c ∈ clHeader, c ≠ '\r' := by decide

theorem not_cr_header (n : Nat) : ∀ c ∈ clHeader ++ natDecimal n, c ≠ '\r' := by
  intro c hc
  rcases List.mem_append.1 hc with hh | hd
  · exact not_cr_clHeader c hh
  · exact not_cr_of_isDigit (isDigit_natDecimal n c hd)

/-- Decoding a complete frame `hd ++ "\r\n\r\n" ++ body`, where the header
part `hd` is CR-free and carries `Content-Length: body.length`, yields
exactly the body once and leaves an empty buffer. -/
theorem tryDrainLsp_frame_general (hd body : List Char)
    (hnocr : ∀ c ∈ hd, c ≠ '\r')
    (hcl : contentLengthOf hd = some body.length) :
    tryDrainLsp (hd ++ (crlf2 ++ body)) = ([body], []) := by
  have hfind := findCrlf2_at_boundary hd body hnocr
  have htake : (hd ++ (crlf2 ++ body)).take hd.length = hd := List.take_left hd _
  have hcl2 : contentLengthOf ((hd ++ (crlf2 ++ body)).take hd.length) = some body.length := by
    rw [htake, hcl]
  have hlen : (hd ++ (crlf2 ++ body)).length = hd.length + 4 + body.length := by
    simp [crlf2]
    omega
  have hge : ¬ (hd ++ (crlf2 ++ body)).length < hd.length + 4 + body.length := by
    rw [hlen]
    omega
  rw [tryDrainLsp_of_frame hfind hcl2 hge]
  have hdrop4 : (hd ++ (crlf2 ++ body)).drop (hd.length + 4) = body := by
    have hassoc : hd ++ (crlf2 ++ body) = (hd ++ crlf2) ++ body := by
      rw [List.append_assoc]
    rw [hassoc]
    have hl : (hd ++ crlf2).length = hd.length + 4 := by simp [crlf2]
    rw [← hl]
    exact List.drop_left _ _
  have hdropAll : (hd ++ (crlf2 ++ body)).drop (hd.length + 4 + body.length) = [] := by
    apply List.drop_eq_nil_of_le
    rw [hlen]
  rw [hdrop4, hdropAll, List.take_length,
    tryDrainLsp_of_none (show findCrlf2 [] = none from rfl)]

/-- Decoding any proper byte-level truncation of such a frame yields no
message and keeps all the bytes buffered. -/
theorem tryDrainLsp_truncated_general (hd body : List Char) (k : Nat)
    (hnocr : ∀ c ∈ hd, c ≠ '\r')
    (hcl : contentLengthOf hd = some body.length)
    (hk : k < (hd ++ (crlf2 ++ body)).length) :
    tryDrainLsp ((hd ++ (crlf2 ++ body)).take k)
      = ([], (hd ++ (crlf2 ++ body)).take k) := by
  have hlen : (hd ++ (crlf2 ++ body)).length = hd.length + 4 + body.length := by
    simp [crlf2]
    omega
  by_cases hh : k ≤ hd.length
  · -- cut inside the CR-free part of the header
    apply tryDrainLsp_of_none
    have heq : (hd ++ (crlf2 ++ body)).take k = hd.take k :=
      List.take_append_of_le_length hh
    rw [heq]
    have hno : ∀ c ∈ hd.take k, c ≠ '\r' := fun c hc =>
      hnocr c (List.mem_of_mem_take hc)
    have := findCrlf2_none_of_noCr (hd.take k) [] hno (Or.inl rfl)
    simpa using this
  · push_neg at hh
    obtain ⟨m, rfl⟩ : ∃ m, k = hd.length + m := ⟨k - hd.length, by omega⟩
    have hsplit : (hd ++ (crlf2 ++ body)).take (hd.length + m)
        = hd ++ (crlf2 ++ body).take m := List.take_append ..
    by_cases h4 : m < 4
    · -- cut inside the \r\n\r\n separator
      apply tryDrainLsp_of_none
      rw [hsplit]
      have hsep : (crlf2 ++ body).take m = crlf2.take m :=
        List.take_append_of_le_length (by simp [crlf2]; omega)
      rw [hsep]
      apply findCrlf2_none_of_noCr _ _ hnocr
      interval_cases m
      · exact Or.inl rfl
      · exact Or.inr (Or.inl rfl)
      · exact Or.inr (Or.inr (Or.inl rfl))
      · exact Or.inr (Or.inr (Or.inr rfl))
    · -- full header present, body truncated: frame incomplete, keep waiting
      push_neg at h4
      obtain ⟨r, rfl⟩ : ∃ r, m = 4 + r := ⟨m - 4, by omega⟩
      have hr : r < body.length := by
        rw [hlen] at hk
        omega
      have hsep : (crlf2 ++ body).take (4 + r) = crlf2 ++ body.take r := by
        have hc4 : crlf2.length = 4 := rfl
        rw [show (4 + r) = crlf2.length + r by rw [hc4]]
        exact List.take_append ..
      rw [hsplit, hsep]
      have hfind := findCrlf2_at_boundary hd (body.take r) hnocr
      have htake : (hd ++ (crlf2 ++ body.take r)).take hd.length = hd :=
        List.take_left hd _
      have hcl2 : contentLengthOf ((hd ++ (crlf2 ++ body.take r)).take hd.length)
          = some body.length := by rw [htake, hcl]
      apply tryDrainLsp_of_short hfind hcl2
      have : (hd ++ (crlf2 ++ body.take r)).length = hd.length + 4 + r := by
        simp [crlf2]
        omega
      rw [this]
      omega

theorem writeMessageLsp_decomp (body : List Char) :
    writeMessageLsp body
      = (clHeader ++ natDecimal body.length) ++ (crlf2 ++ body) := by
  unfold writeMessageLsp
  simp [List.append_assoc]

/-- Decoding a complete `writeMessage` LSP frame yields exactly the body once
and leaves an empty buffer. -/
theorem tryDrainLsp_writeMessage (body : List Char) :
    tryDrainLsp (writeMessageLsp body) = ([body], []) := by
  rw [writeMessageLsp_decomp]
  exact tryDrainLsp_frame_general _ _ (not_cr_header body.length)
    (contentLengthOf_header body.length)

/-- Decoding a proper truncation of a `writeMessage` LSP frame yields no
message and keeps the bytes buffered. -/
theorem tryDrainLsp_writeMessage_take (body : List Char) (k : Nat)
    (hk : k < (writeMessageLsp body).length) :
    tryDrainLsp ((writeMessageLsp body).take k)
      = ([], (writeMessageLsp body).take k) := by
  rw [writeMessageLsp_decomp] at hk ⊢
  exact tryDrainLsp_truncated_general _ _ k (not_cr_header body.length)
    (contentLengthOf_header body.length) hk

theorem onData_lsp_state (nb lb chunk : List Char) :
    onData ⟨.lsp, nb, lb⟩ chunk =
      (⟨.lsp, nb, (tryDrainLsp (lb ++ chunk)).2⟩, (tryDrainLsp (lb ++ chunk)).1) := rfl

/-- C7. On an LSP-framed channel, a message encoded with `Content-Length`
framing by `writeMessage` and fed back through the decoder — even when the
bytes are split at an arbitrary offset, inside the header or the body —
yields the original message, decoded exactly once. -/
theorem lsp_roundtrip_split {α : Type} (parse : List Char → Option α) (msg : α)
    (body : List Char) (k : Nat) (hp : parse body = some msg) :
    decodedMessages parse ⟨.lsp, [], []⟩
      [(writeMessageLsp body).take k, (writeMessageLsp body).drop k] = [msg] := by
  unfold decodedMessages
  by_cases hk : k < (writeMessageLsp body).length
  · simp only [feed, onData_lsp_state, List.append_nil, List.nil_append]
    rw [tryDrainLsp_writeMessage_take body k hk]
    simp only [List.take_append_drop]
    rw [tryDrainLsp_writeMessage body]
    simp [hp]
  · push_neg at hk
    have htk : (writeMessageLsp body).take k = writeMessageLsp body :=
      List.take_of_length_le hk
    have hdr : (writeMessageLsp body).drop k = [] :=
      List.drop_eq_nil_of_le hk
    rw [htk, hdr]
    simp only [feed, onData_lsp_state, List.append_nil, List.nil_append]
    rw [tryDrainLsp_writeMessage body]
    rw [tryDrainLsp_of_none (show findCrlf2 [] = none from rfl)]
    simp [hp]

/-- Closed instance for `lsp_roundtrip_split`: the body "42" with the frame
split 7 bytes in (inside the `Content-Length` header). -/
theorem lsp_roundtrip_split_witness :
    (some ("42".toList) = some ("42".toList)) ∧
    decodedMessages (fun l => some l) ⟨.lsp, [], []⟩
        [(writeMessageLsp "42".toList).take 7, (writeMessageLsp "42".toList).drop 7]
      = ["42".toList] := by
  exact ⟨rfl, lsp_roundtrip_split (fun l => some l) ("42".toList) ("42".toList) 7 rfl⟩

end Codec

namespace Registry

/-! ## Client-side MCP process registry (`ServerProcess`)

Embeds the pending-request correlation (`_handleRpcMessage`), the
request-sending path of `rpc`, and the child-exit handler. -/

/-- One outstanding PendingRequest.  The `resolve`/`reject` callbacks are
represented by the settlement the handler reports (see `Settlement`); the
`setTimeout` handle is modelled as an opaque numeric token. -/
structure PendingEntry where
  timerId : Nat
deriving DecidableEq

/-- `pending.get(id)` (JS `Map`, keys unique). -/
def mapGet (m : List (Nat × PendingEntry)) (k : Nat) : Option PendingEntry :=
  m.lookup k

/-- `pending.delete(id)` (JS `Map`: removes the unique entry for the key). -/
def mapDelete (m : List (Nat × PendingEntry)) (k : Nat) : List (Nat × PendingEntry) :=
  m.eraseP (fun kv => kv.1 == k)

/-- `pending.set(id, entry)` (JS `Map`: replaces in place or appends). -/
def mapSet (m : List (Nat × PendingEntry)) (k : Nat) (v : PendingEntry) :
    List (Nat × PendingEntry) :=
  if (m.lookup k).isSome then m.map (fun kv => if kv.1 == k then (k, v) else kv)
  else m ++ [(k, v)]

/-- How a PendingRequest promise is settled: resolved with the response's
`result`, or rejected with an `Error` carrying the response error's
code/message/data. -/
inductive Settlement where
  | resolved (result : JVal)
  | rejected (code : Option Int) (message : String) (data : Option JVal)

/-- The `error` member of an inbound response, with each field optional as in
JSON. -/
structure RpcErrObj where
  code : Option Int
  message : Option String
  data : Option JVal

/-- An inbound parsed JSON-RPC message as inspected by `_handleRpcMessage`:
whether it has an `id` own-property, the id value, the optional `error`
object, and the `result` value. -/
structure InMsg where
  hasId : Bool
  id : Nat
  error : Option RpcErrObj
  result : JVal

/-- The settlement `_handleRpcMessage` applies to the matched entry:
`msg.error` present rejects with `new Error(msg.error?.message || 'MCP error')`
carrying `code`/`data`; otherwise resolves with `msg.result`. -/
def settlementOf (msg : InMsg) : Settlement :=
  match msg.error with
  | some e => .rejected e.code (jsOrStr e.message "MCP error") e.data
  | none => .resolved msg.result

/-- `_handleRpcMessage`: if the message has an `id` and an entry is pending
under it, clear the entry's timer, delete it, and settle exactly that
promise; otherwise do nothing.  Returns the new pending map and, when a
settlement happened, `(settled id, cleared timer, settlement)`. -/
def handleRpcMessage (pending : List (Nat × PendingEntry)) (msg : InMsg) :
    List (Nat × PendingEntry) × Option (Nat × Nat × Settlement) :=
  if msg.hasId then
    match mapGet pending msg.id with
    | none => (pending, none)
    | some p => (mapDelete pending msg.id, some (msg.id, p.timerId, settlementOf msg))
  else (pending, none)

theorem lookup_eq_none_of_not_mem {m : List (Nat × PendingEntry)} {k : Nat}
    (h : k ∉ m.map Prod.fst) : m.lookup k = none := by
  induction m with
  | nil => rfl
  | cons kv m ih =>
    simp only [List.map_cons, List.mem_cons, not_or] at h
    obtain ⟨h1, h2⟩ := h
    have hb : (k == kv.1) = false := by simp [h1]
    simp only [List.lookup, hb]
    exact ih h2

theorem mapGet_mapDelete_self {m : List (Nat × PendingEntry)} {k : Nat}
    (hnodup : (m.map Prod.fst).Nodup) : mapGet (mapDelete m k) k = none := by
  induction m with
  | nil => rfl
  | cons kv m ih =>
    simp only [List.map_cons, List.nodup_cons] at hnodup
    obtain ⟨hk, hnd⟩ := hnodup
    unfold mapGet mapDelete at *
    by_cases hkv : kv.1 = k
    · subst hkv
      simp only [List.eraseP_cons, beq_self_eq_true]
      exact lookup_eq_none_of_not_mem hk
    · have hb : (kv.1 == k) = false := by simp [hkv]
      simp only [List.eraseP_cons, hb]
      have hb2 : (k == kv.1) = false := by
        simp only [beq_eq_false_iff_ne, ne_eq]
        exact fun h => hkv h.symm
      simp only [List.lookup, hb2]
      exact ih hnd

theorem mapGet_mapDelete_ne {m : List (Nat × PendingEntry)} {k j : Nat}
    (hne : j ≠ k) : mapGet (mapDelete m k) j = mapGet m j := by
  induction m with
  | nil => rfl
  | cons kv m ih =>
    unfold mapGet mapDelete at *
    by_cases hkv : kv.1 = k
    · subst hkv
      simp only [List.eraseP_cons, beq_self_eq_true]
      have hb : (j == kv.1) = false := by simp [hne]
      simp [List.lookup, hb]
    · have h1 : (kv.1 == k) = false := by simp [hkv]
      simp only [List.eraseP_cons, h1]
      cases hkj : (j == kv.1) with
      | true => simp [List.lookup, hkj]
      | false =>
        simp only [List.lookup, hkj]
        exact ih

/-- C5.  A response whose id matches an outstanding PendingRequest settles
exactly that entry (resolving with the result or rejecting with the error's
code/message/data), clears its timer and removes the entry, leaving every
other entry untouched; a response with no matching id — or a message with no
id at all — leaves the pending map unchanged and settles nothing. -/
theorem handleRpcMessage_correlation (pending : List (Nat × PendingEntry))
    (msg : InMsg) (hnodup : (pending.map Prod.fst).Nodup) :
    (∀ p, msg.hasId = true → mapGet pending msg.id = some p →
      handleRpcMessage pending msg
        = (mapDelete pending msg.id, some (msg.id, p.timerId, settlementOf msg)) ∧
      mapGet (mapDelete pending msg.id) msg.id = none ∧
      (∀ j, j ≠ msg.id → mapGet (mapDelete pending msg.id) j = mapGet pending j)) ∧
    (msg.hasId = true → mapGet pending msg.id = none →
      handleRpcMessage pending msg = (pending, none)) ∧
    (msg.hasId = false → handleRpcMessage pending msg = (pending, none)) := by
  refine ⟨?_, ?_, ?_⟩
  · intro p hid hp
    refine ⟨?_, mapGet_mapDelete_self hnodup, fun j hj => mapGet_mapDelete_ne hj⟩
    unfold handleRpcMessage
    rw [hid, hp]
    simp
  · intro hid hp
    unfold handleRpcMessage
    rw [hid, hp]
    simp
  · intro hid
    unfold handleRpcMessage
    rw [hid]
    simp

/-- Closed instance for `handleRpcMessage_correlation`: a concrete pending
map with entries 1 and 2, and an error response for id 1. -/
theorem handleRpcMessage_correlation_witness :
    ([(1, PendingEntry.mk 10), (2, PendingEntry.mk 20)].map Prod.fst).Nodup ∧
    (handleRpcMessage [(1, ⟨10⟩), (2, ⟨20⟩)]
        ⟨true, 1, some ⟨some (-32601), some "nope", none⟩, JVal.null⟩
      = ([(2, ⟨20⟩)], some (1, 10, .rejected (some (-32601)) "nope" none))) ∧
    mapGet [(2, PendingEntry.mk 20)] 2 = some ⟨20⟩ := by
  have hnodup : (([(1, PendingEntry.mk 10), (2, PendingEntry.mk 20)]).map Prod.fst).Nodup := by
    decide
  have h := handleRpcMessage_correlation [(1, ⟨10⟩), (2, ⟨20⟩)]
    ⟨true, 1, some ⟨some (-32601), some "nope", none⟩, JVal.null⟩ hnodup
  refine ⟨hnodup, ?_, rfl⟩
  have := (h.1 ⟨10⟩ rfl rfl).1
  rw [this]
  rfl

/-- The registry state `rpc` manipulates: the monotone id counter and the
pending map. -/
structure RegState where
  nextId : Nat
  pending : List (Nat × PendingEntry)

/-- The observable outcome of one `rpc` send attempt: the updated counter and
pending map, which timers were cleared (`clearTimeout`), and whether the
call threw to the caller. -/
structure RpcSendOutcome where
  nextId : Nat
  pending : List (Nat × PendingEntry)
  clearedTimers : List Nat
  threw : Bool

/-- The request-sending path of `rpc` (chat registry): allocate `id =
this.nextId++`; create the promise, arming a timeout timer and registering
`pending.set(id, {resolve, reject, timer})`; then write the request line to
the child's stdin.  If the write throws: look the entry up, clear its timer,
delete it from the map, and rethrow to the caller.  `writeOk` models whether
`child.stdin.write` throws; `newTimer` is the timer token `setTimeout`
returned. -/
def rpcSend (st : RegState) (newTimer : Nat) (writeOk : Bool) : RpcSendOutcome :=
  let id := st.nextId
  let p1 := mapSet st.pending id ⟨newTimer⟩
  if writeOk then ⟨st.nextId + 1, p1, [], false⟩
  else
    match mapGet p1 id with
    | some p => ⟨st.nextId + 1, mapDelete p1 id, [p.timerId], true⟩
    | none => ⟨st.nextId + 1, p1, [], true⟩

theorem lookup_append_single (m : List (Nat × PendingEntry)) (k : Nat)
    (v : PendingEntry) (h : m.lookup k = none) :
    (m ++ [(k, v)]).lookup k = some v := by
  induction m with
  | nil => simp [List.lookup]
  | cons kv m ih =>
    simp only [List.lookup] at h ⊢
    cases hb : (k == kv.1) with
    | true => rw [hb] at h; simp at h
    | false =>
      rw [hb] at h
      show List.lookup k (m ++ [(k, v)]) = some v
      exact ih h

theorem eraseP_append_singleton (m : List (Nat × PendingEntry)) (k : Nat)
    (v : PendingEntry) (hfresh : ∀ kv ∈ m, kv.1 ≠ k) :
    (m ++ [(k, v)]).eraseP (fun kv => kv.1 == k) = m := by
  induction m with
  | nil => simp [List.eraseP]
  | cons kv m ih =>
    have h1 : kv.1 ≠ k := hfresh kv (by simp)
    have hb : (kv.1 == k) = false := by simp [h1]
    rw [List.cons_append]
    simp only [List.eraseP_cons, hb]
    rw [ih (fun x hx => hfresh x (by simp [hx]))]
    rfl

/-- C10.  When writing the encoded request line throws, `rpc` removes the
PendingRequest entry it had just created and clears its timer before the
error propagates: a failed send leaves the pending map exactly as it was
before the call. -/
theorem rpc_failed_send_restores_pending (st : RegState) (timer : Nat)
    (hfresh : ∀ kv ∈ st.pending, kv.1 ≠ st.nextId) :
    (rpcSend st timer false).pending = st.pending ∧
    (rpcSend st timer false).clearedTimers = [timer] ∧
    (rpcSend st timer false).threw = true ∧
    (rpcSend st timer false).nextId = st.nextId + 1 := by
  have hnone : st.pending.lookup st.nextId = none :=
    lookup_eq_none_of_not_mem (by
      simp only [List.mem_map, not_exists, not_and]
      intro kv hkv
      exact fun he => hfresh kv hkv he)
  have hset : mapSet st.pending st.nextId ⟨timer⟩ = st.pending ++ [(st.nextId, ⟨timer⟩)] := by
    unfold mapSet
    rw [hnone]
    rfl
  have hget : mapGet (st.pending ++ [(st.nextId, ⟨timer⟩)]) st.nextId = some ⟨timer⟩ :=
    lookup_append_single _ _ _ hnone
  have hdel : mapDelete (st.pending ++ [(st.nextId, ⟨timer⟩)]) st.nextId = st.pending :=
    eraseP_append_singleton _ _ _ hfresh
  unfold rpcSend
  simp only [hset, if_false, Bool.false_eq_true]
  rw [show mapGet (st.pending ++ [(st.nextId, PendingEntry.mk timer)]) st.nextId
        = some ⟨timer⟩ from hget]
  simp [hdel]

/-- Closed instance for `rpc_failed_send_restores_pending`: one outstanding
entry, fresh id 2, failing write. -/
theorem rpc_failed_send_restores_pending_witness :
    (∀ kv ∈ [(1, PendingEntry.mk 10)], kv.1 ≠ 2) ∧
    (rpcSend ⟨2, [(1, ⟨10⟩)]⟩ 77 false).pending = [(1, ⟨10⟩)] ∧
    (rpcSend ⟨2, [(1, ⟨10⟩)]⟩ 77 false).clearedTimers = [77] := by
  have hfresh : ∀ kv ∈ [(1, PendingEntry.mk 10)], kv.1 ≠ 2 := by decide
  have h := rpc_failed_send_restores_pending ⟨2, [(1, ⟨10⟩)]⟩ 77 hfresh
  exact ⟨hfresh, h.1, h.2.1⟩

end Registry

namespace Supervisor

/-! ## Process supervisor (`ServerProcess` with handshake, part of the
multi-MCP registry): exit handling and the ready barrier. -/

/-- Supervisor state: the child-process handle (opaque pid token), the stdout
NDJSON reassembly buffer, the id counter, the pending map, whether the idle
interval is armed, and the handshake memo fields (`this.initialized` as
`inited`, `this.initPromise !== null` as `initPromiseActive`). -/
structure SupState where
  child : Option Nat
  buffer : List Char
  nextId : Nat
  pending : List (Nat × Registry.PendingEntry)
  idleTimerArmed : Bool
  inited : Bool
  initPromiseActive : Bool

/-- The message of the error every PendingRequest is rejected with on child
exit: `MCP "<name>" process exited`. -/
def exitMessage (name : String) : String :=
  "MCP \"" ++ name ++ "\" process exited"

/-- The `child.on('exit', ...)` handler: clear each pending entry's timer and
reject it with the process-exited error, then clear the pending map, the
child reference, the stdout buffer, the idle interval, and both handshake
memo fields.  Returns the new state and, per former pending entry in map
order, `(id, cleared timer, rejection message)`. -/
def onExit (name : String) (st : SupState) :
    SupState × List (Nat × Nat × String) :=
  (⟨none, [], st.nextId, [], false, false, false⟩,
   st.pending.map (fun kv => (kv.1, kv.2.timerId, exitMessage name)))

/-- `_ensureReadyBarrier` memoization: a fresh handshake runs iff
`this.initialized` is false and no barrier promise is in flight. -/
def barrierRunsFresh (st : SupState) : Bool := !st.inited && !st.initPromiseActive

/-- `start()` spawns a new child process iff no child is attached. -/
def startSpawns (st : SupState) : Bool := st.child.isNone

/-- C6.  On child exit every outstanding PendingRequest — however many — is
rejected with the "process exited" error and its timer cleared; the pending
map, stdout buffer and child reference are all cleared, and both handshake
memo fields are reset, so the next `rpc` call runs `start()` (which spawns,
as no child is attached) and a fresh handshake barrier: Ready state is never
inherited across process instances. -/
theorem onExit_resets_and_rejects_all (name : String) (st : SupState) :
    (onExit name st).2
      = st.pending.map (fun kv => (kv.1, kv.2.timerId, exitMessage name)) ∧
    (∀ r ∈ (onExit name st).2, r.2.2 = exitMessage name) ∧
    ((onExit name st).2.map (fun r => r.1)) = st.pending.map Prod.fst ∧
    (onExit name st).1.pending = [] ∧
    (onExit name st).1.buffer = [] ∧
    (onExit name st).1.child = none ∧
    (onExit name st).1.inited = false ∧
    (onExit name st).1.initPromiseActive = false ∧
    barrierRunsFresh (onExit name st).1 = true ∧
    startSpawns (onExit name st).1 = true := by
  refine ⟨rfl, ?_, ?_, rfl, rfl, rfl, rfl, rfl, rfl, rfl⟩
  · intro r hr
    simp only [onExit, List.mem_map] at hr
    obtain ⟨kv, _, rfl⟩ := hr
    rfl
  · simp [onExit]

/-- Case-insensitive substring test, for the `/.../i.test(msg)` regexes whose
patterns are plain literals. -/
def containsCI (pat : List Char) : List Char → Bool
  | [] => Codec.beginsWithCI pat []
  | c :: cs => Codec.beginsWithCI pat (c :: cs) || containsCI pat cs

/-- Skip `\s+` (at least one whitespace character, then greedily all of them)
and then match `pat` case-insensitively, returning the rest.  Sound for
patterns starting with a non-whitespace character, as here. -/
def wsThenCI (pat : List Char) (s : List Char) : Option (List Char) :=
  match s with
  | [] => none
  | c :: cs =>
    if Codec.isJsWs c then
      let r := cs.dropWhile Codec.isJsWs
      if Codec.beginsWithCI pat r then some (r.drop pat.length) else none
    else none

/-- The regex `/method\s+not\s+found/i` attempted at the start of `s`. -/
def mnfAt (s : List Char) : Bool :=
  if Codec.beginsWithCI "method".toList s then
    match wsThenCI "not".toList (s.drop 6) with
    | some r => (wsThenCI "found".toList r).isSome
    | none => false
  else false

/-- `/method\s+not\s+found/i.test(msg)`: scan every start position. -/
def testMethodNotFound : List Char → Bool
  | [] => mnfAt []
  | c :: cs => mnfAt (c :: cs) || testMethodNotFound cs

/-- The tolerance test for an `initialize` failure:
`code === -32601 || /method\s+not\s+found/i.test(msg)`. -/
def isInitMethodNotFound (e : JsErr) : Bool :=
  (e.code == some (-32601 : Int)) || testMethodNotFound e.message.toList

/-- The probe-retry test:
`/before initialization was complete/i.test(msg) || /initializ/i.test(msg)`. -/
def isInitRetryMsg (msg : String) : Bool :=
  containsCI "before initialization was complete".toList msg.toList ||
  containsCI "initializ".toList msg.toList

/-- `delay = Math.min(1000, Math.round(delay * 1.6))`.  `Math.round (d * 1.6)`
is modelled as `(16 * d + 5) / 10` (round half up); on every delay value the
loop can actually reach from 120 this agrees with the JS double computation. -/
def nextDelay (d : Nat) : Nat := min 1000 ((16 * d + 5) / 10)

/-- Trace events the handshake barrier performs, in order. -/
inductive BarrierEvent where
  | rpcCall (method : String) (params : Option JVal) (timeoutMs : Nat)
  | notifyEv (method : String) (params : JVal)
  | sleepEv (ms : Nat)

/-- The `initialize` params: `{protocolVersion, capabilities, clientInfo}`. -/
def initParams : JVal :=
  .obj [("protocolVersion", .str "2024-11-05"),
        ("capabilities", .obj []),
        ("clientInfo", .obj [("name", .str "sofig-chat"), ("version", .str "0.1.0")])]

/-- The readiness probe loop (`for (let i = 0; i < 5; i++)`): sleep the
current delay, probe `tools/list` (timeout 5 s); success marks the process
Ready; a failure whose message looks init-related retries with the grown
delay; any other failure also marks Ready; falling out of the loop marks
Ready.  `probe i` is the outcome of the i-th `tools/list` rpc.  Returns the
events performed and the final `initialized` flag. -/
def probeLoop (probe : Nat → Except JsErr JVal) : Nat → Nat → Nat → List BarrierEvent × Bool
  | 0, _, _ => ([], true)
  | fuel + 1, i, d =>
    let evs : List BarrierEvent := [.sleepEv d, .rpcCall "tools/list" none 5000]
    match probe i with
    | .ok _ => (evs, true)
    | .error e =>
      if isInitRetryMsg e.message then
        let p := probeLoop probe fuel (i + 1) (nextDelay d)
        (evs ++ p.1, p.2)
      else (evs, true)

/-- `_ensureReadyBarrier` body (fresh run): send `initialize` (timeout 10 s)
with `initParams`; a failure is tolerated iff it is a method-not-found
failure, any other failure propagates; then send the
`notifications/initialized` notification and run the probe loop with initial
delay 120 ms.  `initResult` is the outcome of the `initialize` rpc. -/
def ensureReadyBarrier (initResult : Except JsErr JVal)
    (probe : Nat → Except JsErr JVal) : Except JsErr (List BarrierEvent × Bool) :=
  let initEv := BarrierEvent.rpcCall "initialize" (some initParams) 10000
  let run : List BarrierEvent × Bool :=
    let p := probeLoop probe 5 0 120
    (initEv :: BarrierEvent.notifyEv "notifications/initialized" (JVal.obj []) :: p.1,
     p.2)
  match initResult with
  | .ok _ => .ok run
  | .error e => if isInitMethodNotFound e then .ok run else .error e

/-- Whether the barrier treats the `initialize` outcome as tolerable. -/
def initTolerated (r : Except JsErr JVal) : Bool :=
  match r with
  | .ok _ => true
  | .error e => isInitMethodNotFound e

/-- Whether a probe outcome causes a retry (an init-related failure). -/
def retryable (r : Except JsErr JVal) : Bool :=
  match r with
  | .ok _ => false
  | .error e => isInitRetryMsg e.message

/-- How many probes the loop performs: up to and including the first
non-retryable outcome, and at most 5. -/
def numProbes (probe : Nat → Except JsErr JVal) : Nat :=
  match (List.range 5).find? (fun i => !retryable (probe i)) with
  | some i => i + 1
  | none => 5

/-- The successive sleep delays: 120 ms grown by ×1.6 (rounded) per retry,
capped at 1 s.  Five attempts never reach the cap. -/
def delayTable : List Nat := [120, 192, 307, 491, 786]

/-- The canonical probe-phase trace: one sleep (with the grown delay) and one
`tools/list` rpc per attempt actually made. -/
def probeEvents (probe : Nat → Except JsErr JVal) : List BarrierEvent :=
  ((delayTable.take (numProbes probe)).map
    (fun d => [BarrierEvent.sleepEv d, BarrierEvent.rpcCall "tools/list" none 5000])).flatten

theorem probe_phase_spec (probe : Nat → Except JsErr JVal) :
    probeLoop probe 5 0 120 = (probeEvents probe, true) ∧
    numProbes probe ≤ 5 ∧
    (∀ j, j + 1 < numProbes probe → retryable (probe j) = true) ∧
    (numProbes probe < 5 → retryable (probe (numProbes probe - 1)) = false) := by
  have hr : List.range 5 = [0, 1, 2, 3, 4] := rfl
  have d1 : nextDelay 120 = 192 := rfl
  have d2 : nextDelay 192 = 307 := rfl
  have d3 : nextDelay 307 = 491 := rfl
  have d4 : nextDelay 491 = 786 := rfl
  by_cases h0 : retryable (probe 0) = true
  case neg =>
    rw [Bool.not_eq_true] at h0
    have hn : numProbes probe = 1 := by
      unfold numProbes
      rw [hr]
      simp [List.find?, h0]
    refine ⟨?_, by omega, fun j hj => absurd hj (by omega), fun _ => by rw [hn]; exact h0⟩
    cases hp0 : probe 0 with
    | ok v =>
      simp only [probeLoop, hp0, probeEvents, hn, delayTable]
      rfl
    | error e =>
      have he : isInitRetryMsg e.message = false := by
        rw [hp0] at h0
        exact h0
      simp only [probeLoop, hp0, he, probeEvents, hn, delayTable]
      rfl
  case pos =>
  obtain ⟨e0, hp0⟩ : ∃ e, probe 0 = .error e := by
    cases hp : probe 0 with
    | ok v => rw [hp] at h0; simp [retryable] at h0
    | error e => exact ⟨e, rfl⟩
  have he0 : isInitRetryMsg e0.message = true := by rw [hp0] at h0; exact h0
  by_cases h1 : retryable (probe 1) = true
  case neg =>
    rw [Bool.not_eq_true] at h1
    have hn : numProbes probe = 2 := by
      unfold numProbes
      rw [hr]
      simp [List.find?, h0, h1]
    refine ⟨?_, by omega, ?_, fun _ => by rw [hn]; exact h1⟩
    · cases hp1 : probe 1 with
      | ok v =>
        simp only [probeLoop, hp0, he0, if_true, d1, hp1, probeEvents, hn, delayTable]
        rfl
      | error e =>
        have he : isInitRetryMsg e.message = false := by rw [hp1] at h1; exact h1
        simp only [probeLoop, hp0, he0, if_true, d1, hp1, he, probeEvents, hn, delayTable]
        rfl
    · intro j hj
      rw [hn] at hj
      obtain rfl : j = 0 := by omega
      exact h0
  case pos =>
  obtain ⟨e1, hp1⟩ : ∃ e, probe 1 = .error e := by
    cases hp : probe 1 with
    | ok v => rw [hp] at h1; simp [retryable] at h1
    | error e => exact ⟨e, rfl⟩
  have he1 : isInitRetryMsg e1.message = true := by rw [hp1] at h1; exact h1
  by_cases h2 : retryable (probe 2) = true
  case neg =>
    rw [Bool.not_eq_true] at h2
    have hn : numProbes probe = 3 := by
      unfold numProbes
      rw [hr]
      simp [List.find?, h0, h1, h2]
    refine ⟨?_, by omega, ?_, fun _ => by rw [hn]; exact h2⟩
    · cases hp2 : probe 2 with
      | ok v =>
        simp only [probeLoop, hp0, he0, hp1, he1, if_true, d1, d2, hp2,
          probeEvents, hn, delayTable]
        rfl
      | error e =>
        have he : isInitRetryMsg e.message = false := by rw [hp2] at h2; exact h2
        simp only [probeLoop, hp0, he0, hp1, he1, if_true, d1, d2, hp2, he,
          probeEvents, hn, delayTable]
        rfl
    · intro j hj
      rw [hn] at hj
      rcases (show j = 0 ∨ j = 1 by omega) with rfl | rfl
      · exact h0
      · exact h1
  case pos =>
  obtain ⟨e2, hp2⟩ : ∃ e, probe 2 = .error e := by
    cases hp : probe 2 with
    | ok v => rw [hp] at h2; simp [retryable] at h2
    | error e => exact ⟨e, rfl⟩
  have he2 : isInitRetryMsg e2.message = true := by rw [hp2] at h2; exact h2
  by_cases h3 : retryable (probe 3) = true
  case neg =>
    rw [Bool.not_eq_true] at h3
    have hn : numProbes probe = 4 := by
      unfold numProbes
      rw [hr]
      simp [List.find?, h0, h1, h2, h3]
    refine ⟨?_, by omega, ?_, fun _ => by rw [hn]; exact h3⟩
    · cases hp3 : probe 3 with
      | ok v =>
        simp only [probeLoop, hp0, he0, hp1, he1, hp2, he2, if_true, d1, d2, d3, hp3,
          probeEvents, hn, delayTable]
        rfl
      | error e =>
        have he : isInitRetryMsg e.message = false := by rw [hp3] at h3; exact h3
        simp only [probeLoop, hp0, he0, hp1, he1, hp2, he2, if_true, d1, d2, d3, hp3,
          he, probeEvents, hn, delayTable]
        rfl
    · intro j hj
      rw [hn] at hj
      rcases (show j = 0 ∨ j = 1 ∨ j = 2 by omega) with rfl | rfl | rfl
      · exact h0
      · exact h1
      · exact h2
  case pos =>
  obtain ⟨e3, hp3⟩ : ∃ e, probe 3 = .error e := by
    cases hp : probe 3 with
    | ok v => rw [hp] at h3; simp [retryable] at h3
    | error e => exact ⟨e, rfl⟩
  have he3 : isInitRetryMsg e3.message = true := by rw [hp3] at h3; exact h3
  by_cases h4 : retryable (probe 4) = true
  case neg =>
    rw [Bool.not_eq_true] at h4
    have hn : numProbes probe = 5 := by
      unfold numProbes
      rw [hr]
      simp [List.find?, h0, h1, h2, h3, h4]
    refine ⟨?_, by omega, ?_, fun _ => by rw [hn]; exact h4⟩
    · cases hp4 : probe 4 with
      | ok v =>
        simp only [probeLoop, hp0, he0, hp1, he1, hp2, he2, hp3, he3, if_true,
          d1, d2, d3, d4, hp4, probeEvents, hn, delayTable]
        rfl
      | error e =>
        have he : isInitRetryMsg e.message = false := by rw [hp4] at h4; exact h4
        simp only [probeLoop, hp0, he0, hp1, he1, hp2, he2, hp3, he3, if_true,
          d1, d2, d3, d4, hp4, he, probeEvents, hn, delayTable]
        rfl
    · intro j hj
      rw [hn] at hj
      rcases (show j = 0 ∨ j = 1 ∨ j = 2 ∨ j = 3 by omega) with rfl | rfl | rfl | rfl
      · exact h0
      · exact h1
      · exact h2
      · exact h3
  case pos =>
  obtain ⟨e4, hp4⟩ : ∃ e, probe 4 = .error e := by
    cases hp : probe 4 with
    | ok v => rw [hp] at h4; simp [retryable] at h4
    | error e => exact ⟨e, rfl⟩
  have he4 : isInitRetryMsg e4.message = true := by rw [hp4] at h4; exact h4
  have hn : numProbes probe = 5 := by
    unfold numProbes
    rw [hr]
    simp [List.find?, h0, h1, h2, h3, h4]
  refine ⟨?_, by omega, ?_, fun hlt => absurd hlt (by omega)⟩
  · simp only [probeLoop, hp0, he0, hp1, he1, hp2, he2, hp3, he3, hp4, he4, if_true,
      d1, d2, d3, d4, probeEvents, hn, delayTable]
    rfl
  · intro j hj
    rw [hn] at hj
    rcases (show j = 0 ∨ j = 1 ∨ j = 2 ∨ j = 3 by omega) with rfl | rfl | rfl | rfl
    · exact h0
    · exact h1
    · exact h2
    · exact h3

/-- C8.  When `initialize` succeeds or fails with a method-not-found error
(any other `initialize` failure is not tolerated), the barrier's trace is:
the `initialize` rpc with `{protocolVersion, capabilities, clientInfo}`
params and a 10 s timeout, the `notifications/initialized` notification,
then at most five `tools/list` probes, each preceded by a sleep whose delays
follow 120 ms grown by ×1.6 (rounded, capped at 1 s); the loop continues past
an attempt only when it failed with an init-related message, and whether it
ends by success, by a non-retryable failure, or by exhausting the five
attempts, the barrier completes with the process marked Ready. -/
theorem handshake_barrier_spec (initResult : Except JsErr JVal)
    (probe : Nat → Except JsErr JVal)
    (ht : initTolerated initResult = true) :
    ensureReadyBarrier initResult probe
      = .ok (BarrierEvent.rpcCall "initialize" (some initParams) 10000 ::
             BarrierEvent.notifyEv "notifications/initialized" (JVal.obj []) ::
             probeEvents probe, true) ∧
    probeEvents probe
      = ((delayTable.take (numProbes probe)).map
          (fun d => [BarrierEvent.sleepEv d,
                     BarrierEvent.rpcCall "tools/list" none 5000])).flatten ∧
    numProbes probe ≤ 5 ∧
    (∀ j, j + 1 < numProbes probe → retryable (probe j) = true) ∧
    (numProbes probe < 5 → retryable (probe (numProbes probe - 1)) = false) := by
  obtain ⟨hloop, hle, hretry, hstop⟩ := probe_phase_spec probe
  refine ⟨?_, rfl, hle, hretry, hstop⟩
  unfold ensureReadyBarrier
  cases initResult with
  | ok v => simp [hloop]
  | error e =>
    have ht' : isInitMethodNotFound e = true := ht
    simp only [ht', if_true]
    simp [hloop]

/-- Closed instance for `handshake_barrier_spec`: `initialize` answers
method-not-found (code -32601), the first probe fails "not initialized", the
second succeeds. -/
theorem handshake_barrier_spec_witness :
    initTolerated (.error ⟨some (-32601), "Method not found: initialize", none⟩) = true ∧
    ensureReadyBarrier (.error ⟨some (-32601), "Method not found: initialize", none⟩)
        (fun i => if i = 0
          then .error ⟨none, "Server not initialized", none⟩
          else .ok JVal.null)
      = .ok (BarrierEvent.rpcCall "initialize" (some initParams) 10000 ::
             BarrierEvent.notifyEv "notifications/initialized" (JVal.obj []) ::
             [BarrierEvent.sleepEv 120, BarrierEvent.rpcCall "tools/list" none 5000,
              BarrierEvent.sleepEv 192, BarrierEvent.rpcCall "tools/list" none 5000],
             true) := by
  have ht : initTolerated
      (.error ⟨some (-32601), "Method not found: initialize", none⟩) = true := rfl
  have h := handshake_barrier_spec
    (.error ⟨some (-32601), "Method not found: initialize", none⟩)
    (fun i => if i = 0
      then .error ⟨none, "Server not initialized", none⟩
      else .ok JVal.null) ht
  refine ⟨ht, ?_⟩
  rw [h.1]
  rfl

end Supervisor

namespace McpServer

/-! ## MCP server dispatcher (`createServer.js`) and manifest loader
(`manifest.js`). -/

/-- A compiled tool-table entry of `createServer`.  The Ajv-compiled
validators are modelled as functions returning `none` on success and
`some errors` (the `validate.errors` array, abstracted) on failure; `none`
in the `Option` means no schema was compiled.  `exec` is the lazily-loaded
implementation. -/
structure Tool where
  name : String
  description : String
  validateInput : Option (JVal → Option (List JVal))
  validateOutput : Option (JVal → Option (List JVal))
  timeoutMs : Nat
  exec : JVal → Except JsErr JVal

/-- `tools[name]` on the compiled registry. -/
def lookupTool (tools : List (String × Tool)) (n : String) : Option Tool :=
  tools.lookup n

/-- The output-validation step after `exec` settles: a declared output schema
that rejects the result turns it into error -32001
`Tool <name> produced invalid output`; an `exec` throw propagates as is. -/
def applyOutputValidation (vo : Option (JVal → Option (List JVal))) (name : String)
    (r : Except JsErr JVal) : Except JsErr JVal :=
  match r with
  | .error e => .error e
  | .ok res =>
    match vo with
    | some v =>
      match v res with
      | some errs => .error ⟨some (-32001),
          "Tool " ++ name ++ " produced invalid output",
          some (JVal.obj [("errors", JVal.arr errs)])⟩
      | none => .ok res
    | none => .ok res

/-- `callTool(name, args)` of `createServer`: unknown name throws a plain
`Error` (no `code` attached); a declared input schema rejecting `args || {}`
throws -32602 `Invalid input for <name>` with the validator errors as data;
otherwise `exec(args || {})` runs and its result goes through output
validation.  (The timing of the exec phase is modelled separately by
`execPhaseTimed`.) -/
def callTool (tools : List (String × Tool)) (name : String) (args : JVal) :
    Except JsErr JVal :=
  match lookupTool tools name with
  | none => .error ⟨none, "Tool not found: " ++ name, none⟩
  | some t =>
    let a := if args.truthy then args else JVal.obj []
    match t.validateInput with
    | some v =>
      match v a with
      | some errs => .error ⟨some (-32602), "Invalid input for " ++ name,
          some (JVal.obj [("errors", JVal.arr errs)])⟩
      | none => applyOutputValidation t.validateOutput name (t.exec a)
    | none => applyOutputValidation t.validateOutput name (t.exec a)

/-- A JSON-RPC error object as put on the wire by `toJsonRpcError`. -/
structure JsonRpcErr where
  code : Int
  message : String
  data : Option JVal

/-- A JSON-RPC response as built by `toJsonRpcResult` / `toJsonRpcError`. -/
inductive JsonRpcOut where
  | result (id : JVal) (res : JVal)
  | error (id : JVal) (err : JsonRpcErr)

def outCode : JsonRpcOut → Option Int
  | .result _ _ => none
  | .error _ e => some e.code

def outMessage : JsonRpcOut → Option String
  | .result _ _ => none
  | .error _ e => some e.message

/-- The `tools/call` branch of `handleRequest`: a missing/empty name is
-32602 `Missing tool name`; otherwise `callTool` runs and a throw becomes a
JSON-RPC error with the thrown integer `code` (fallback -32000), its message
and its `data`; success wraps `{name, result}`. -/
def toolsCall (tools : List (String × Tool)) (id : JVal)
    (name : Option String) (argsOpt : Option JVal) : JsonRpcOut :=
  let args := match argsOpt with
    | some a => if a.truthy then a else JVal.obj []
    | none => JVal.obj []
  match name with
  | none => .error id ⟨-32602, "Missing tool name", none⟩
  | some n =>
    if n = "" then .error id ⟨-32602, "Missing tool name", none⟩
    else
      match callTool tools n args with
      | .ok res => .result id (JVal.obj [("name", JVal.str n), ("result", res)])
      | .error e => .error id ⟨e.code.getD (-32000), e.message, e.data⟩

/-- The `default` branch of `handleRequest`: an unknown method (not an
unknown tool) is -32601. -/
def unknownMethod (id : JVal) (method : String) : JsonRpcOut :=
  .error id ⟨-32601, "Method not found: " ++ method, none⟩

def sampleTool : Tool :=
  ⟨"audit_site", "", none, none, 12000, fun _ => .ok JVal.null⟩

/-- C2 counterexample.  With a registered tool table not containing "nope",
`tools/call` for "nope" answers code -32000 with message
`Tool not found: nope` — not -32601 with "Unknown tool" as claimed: the
unknown-name throw carries no `code`, so the catch falls back to -32000. -/
theorem toolsCall_unknown_name_counterexample :
    outCode (toolsCall [("audit_site", sampleTool)] (JVal.num 7) (some "nope") none)
      = some (-32000) ∧
    outMessage (toolsCall [("audit_site", sampleTool)] (JVal.num 7) (some "nope") none)
      = some "Tool not found: nope" ∧
    (some (-32000 : Int) ≠ some (-32601 : Int)) := by
  refine ⟨rfl, rfl, by decide⟩

/-- C2 (amended).  For every `tools/call` whose `params.name` is a non-empty
string that is not a key of the compiled tool table, the dispatcher returns
a JSON-RPC error for that id with code -32000 and message
`Tool not found: <name>` (the code -32601 is reserved for unknown methods,
see `unknownMethod`). -/
theorem toolsCall_unknown_name (tools : List (String × Tool)) (id : JVal)
    (name : String) (args : Option JVal)
    (hne : name ≠ "") (hnf : lookupTool tools name = none) :
    toolsCall tools id (some name) args
      = .error id ⟨-32000, "Tool not found: " ++ name, none⟩ := by
  simp only [toolsCall, callTool, lookupTool] at *
  simp [hnf, hne]

/-- Closed instance for `toolsCall_unknown_name`. -/
theorem toolsCall_unknown_name_witness :
    ("missing" ≠ "") ∧
    lookupTool [("audit_site", sampleTool)] "missing" = none ∧
    toolsCall [("audit_site", sampleTool)] JVal.null (some "missing")
        (some (JVal.obj []))
      = .error JVal.null ⟨-32000, "Tool not found: missing", none⟩ := by
  refine ⟨by decide, rfl, ?_⟩
  exact toolsCall_unknown_name [("audit_site", sampleTool)] JVal.null "missing"
    (some (JVal.obj [])) (by decide) rfl

/-- A manifest tool entry, restricted to the fields the schema normalization
touches: `input_schema` (a path string or an inline object) and the
`input_schema_inline` compatibility field. -/
structure ManifestTool where
  name : String
  input_schema : Option JVal
  input_schema_inline : Option JVal

/-- The default schema the loader installs when a tool declares no input
schema: `{ type: 'object', additionalProperties: false }`. -/
def defaultInputSchema : JVal :=
  .obj [("type", .str "object"), ("additionalProperties", .bool false)]

/-- The loader's normalization step: a tool with neither `input_schema` nor
`input_schema_inline` gets `defaultInputSchema` as its inline schema. -/
def normalizeToolSchema (t : ManifestTool) : ManifestTool :=
  if t.input_schema.isNone && t.input_schema_inline.isNone then
    { t with input_schema_inline := some defaultInputSchema }
  else t

/-- `toSchema` of `loadSchemaMaybe`: a falsy value yields no schema; an
object (or array: `typeof` is `'object'`) is used inline; a string is a file
path, read and parsed (modelled by `readFile`); anything else yields no
schema. -/
def toSchema (readFile : String → Option JVal) (v : Option JVal) : Option JVal :=
  match v with
  | none => none
  | some val =>
    if !val.truthy then none
    else match val with
      | JVal.obj fields => some (JVal.obj fields)
      | JVal.arr xs => some (JVal.arr xs)
      | JVal.str path => readFile path
      | _ => none

/-- `loadSchemaMaybe(primary, secondary)`: the primary (inline) schema, or
else the secondary. -/
def loadSchemaMaybe (readFile : String → Option JVal)
    (primary secondary : Option JVal) : Option JVal :=
  match toSchema readFile primary with
  | some s => some s
  | none => toSchema readFile secondary

/-- Validation semantics, as compiled by Ajv (external library), of the
loader's default schema `{type:'object', additionalProperties:false}`: with
no `properties` declared, `additionalProperties:false` forbids every
property, so exactly objects with no properties validate; non-objects fail
`type:'object'`.  `none` is success, `some errors` failure (the Ajv error
objects are abstracted as an empty list). -/
def validateDefaultSchema : JVal → Option (List JVal)
  | JVal.obj [] => none
  | _ => some []

/-- A tool compiled from a manifest entry with no declared schema: its input
validator is the compiled default schema. -/
def defaultSchemaTool : Tool :=
  ⟨"audit_site", "", some validateDefaultSchema, none, 12000, fun _ => .ok JVal.null⟩

/-- C3 counterexample.  A tool declared without any input schema gets the
default `{type:'object', additionalProperties:false}`, and that schema
rejects the non-empty object `{url: "https://example.com"}`, so `tools/call`
input validation answers -32602 — the default schema does *not* accept every
JSON object. -/
theorem default_schema_rejects_nonempty_counterexample :
    normalizeToolSchema ⟨"audit_site", none, none⟩
      = ⟨"audit_site", none, some defaultInputSchema⟩ ∧
    loadSchemaMaybe (fun _ => none)
        (normalizeToolSchema ⟨"audit_site", none, none⟩).input_schema_inline
        (normalizeToolSchema ⟨"audit_site", none, none⟩).input_schema
      = some defaultInputSchema ∧
    validateDefaultSchema (JVal.obj [("url", JVal.str "https://example.com")])
      = some [] ∧
    outCode (toolsCall [("audit_site", defaultSchemaTool)] (JVal.num 1)
        (some "audit_site") (some (JVal.obj [("url", JVal.str "https://example.com")])))
      = some (-32602) := by
  exact ⟨rfl, rfl, rfl, rfl⟩

/-- C3 (amended).  A tool declared without any input schema is assigned the
default schema `{type:'object', additionalProperties:false}`, which accepts
exactly the empty JSON object: `tools/call` input validation succeeds for
empty-object arguments and fails with -32602 for every JSON object with at
least one property. -/
theorem default_schema_accepts_exactly_empty (t : ManifestTool)
    (h1 : t.input_schema = none) (h2 : t.input_schema_inline = none) :
    (normalizeToolSchema t).input_schema_inline = some defaultInputSchema ∧
    (∀ readFile, loadSchemaMaybe readFile
        (normalizeToolSchema t).input_schema_inline
        (normalizeToolSchema t).input_schema = some defaultInputSchema) ∧
    (∀ v, validateDefaultSchema v = none ↔ v = JVal.obj []) ∧
    (∀ tools id n t', lookupTool tools n = some t' → n ≠ "" →
      t'.validateInput = some validateDefaultSchema →
      ∀ f fs, outCode (toolsCall tools id (some n) (some (JVal.obj (f :: fs))))
        = some (-32602)) := by
  have hnorm : normalizeToolSchema t = { t with input_schema_inline := some defaultInputSchema } := by
    unfold normalizeToolSchema
    rw [h1, h2]
    rfl
  refine ⟨by rw [hnorm], ?_, ?_, ?_⟩
  · intro readFile
    rw [hnorm]
    simp only [h1]
    rfl
  · intro v
    cases v with
    | obj fields =>
      cases fields with
      | nil => simp [validateDefaultSchema]
      | cons f fs => simp [validateDefaultSchema]
    | null => simp [validateDefaultSchema]
    | bool b => simp [validateDefaultSchema]
    | num n => simp [validateDefaultSchema]
    | str s => simp [validateDefaultSchema]
    | arr xs => simp [validateDefaultSchema]
  · intro tools id n t' hl hn hv f fs
    simp only [toolsCall, callTool, lookupTool] at *
    simp [hl, hn, hv, JVal.truthy, validateDefaultSchema, outCode]

/-- Closed instance for `default_schema_accepts_exactly_empty`. -/
theorem default_schema_accepts_exactly_empty_witness :
    (⟨"audit_site", none, none⟩ : ManifestTool).input_schema = none ∧
    (normalizeToolSchema ⟨"audit_site", none, none⟩).input_schema_inline
      = some defaultInputSchema ∧
    (validateDefaultSchema (JVal.obj []) = none ↔ JVal.obj [] = JVal.obj []) := by
  have h := default_schema_accepts_exactly_empty ⟨"audit_site", none, none⟩ rfl rfl
  exact ⟨rfl, h.1, (h.2.2.1 (JVal.obj []))⟩

/-- The timer duration of the exec phase:
`t.timeout_ms || manifest.limits?.timeout_ms_default || 12000`. -/
def resolvedTimeoutMs (declared limitDefault : Option Nat) : Nat :=
  jsOrNat declared (jsOrNat limitDefault 12000)

/-- The observable outcome of the exec phase of `callTool`, with time made
explicit: when the call settles (ms after exec starts), with what result,
and whether the timeout timer fired (calling `controller.abort()`). -/
structure TimedOutcome where
  finishTime : Nat
  result : Except JsErr JVal
  abortFired : Bool

/-- The exec phase of `callTool`, with time made explicit.  The code arms
`timer = setTimeout(() => controller.abort(), t.timeoutMs)`, then `await`s
`t.exec(args, {signal: controller.signal})` with no race against the timer:
the `await` completes exactly when `exec` settles (`execDelay` ms), its
outcome goes through output validation, and the `finally` clears the timer —
so the timer ran (aborting the controller, whose signal the compiled tools'
`exec(args)` signature ignores) iff it expired before `exec` settled.  No
path settles the call at the deadline. -/
def execPhaseTimed (timeoutMs execDelay : Nat) (execResult : Except JsErr JVal)
    (vo : Option (JVal → Option (List JVal))) (name : String) : TimedOutcome :=
  { finishTime := execDelay
    result := applyOutputValidation vo name execResult
    abortFired := decide (timeoutMs < execDelay) }

/-- C1 counterexample.  A tool whose `exec` resolves successfully 100 ms in
under a 5 ms timeout: the timer fires (abort is signalled) but the call is
not abandoned — it completes at 100 ms with `exec`'s success, not with a
timeout outcome at roughly the 5 ms deadline. -/
theorem callTool_timeout_not_abandoning_counterexample :
    (execPhaseTimed 5 100 (.ok JVal.null) none "audit_site").abortFired = true ∧
    (execPhaseTimed 5 100 (.ok JVal.null) none "audit_site").result = .ok JVal.null ∧
    (execPhaseTimed 5 100 (.ok JVal.null) none "audit_site").finishTime = 100 ∧
    (execPhaseTimed 5 100 (.ok JVal.null) none "audit_site").finishTime ≠ 5 := by
  exact ⟨rfl, rfl, rfl, by decide⟩

/-- C1 (amended).  `callTool` arms a timer of `tool.timeoutMs` (declared
value, falling back to `limits.timeout_ms_default`, then 12000) whose only
effect on firing is `controller.abort()`; the dispatcher keeps awaiting
`exec`: the call settles exactly when `exec` settles, with an outcome
independent of the timeout value (so no timeout outcome is ever produced),
and the running `exec` is not killed — cancellation is advisory only. -/
theorem callTool_timeout_advisory_only (timeoutA timeoutB execDelay : Nat)
    (execResult : Except JsErr JVal) (vo : Option (JVal → Option (List JVal)))
    (name : String) (declared limitDefault : Option Nat) :
    (execPhaseTimed timeoutA execDelay execResult vo name).finishTime = execDelay ∧
    (execPhaseTimed timeoutA execDelay execResult vo name).result
      = (execPhaseTimed timeoutB execDelay execResult vo name).result ∧
    (execPhaseTimed timeoutA execDelay execResult vo name).abortFired
      = decide (timeoutA < execDelay) ∧
    resolvedTimeoutMs declared limitDefault
      = jsOrNat declared (jsOrNat limitDefault 12000) ∧
    resolvedTimeoutMs none none = 12000 := by
  exact ⟨rfl, rfl, rfl, rfl, rfl⟩

/-- The candidate list of `loadManifest`: the `MCP_MANIFEST_PATH` override if
set, then `CWD/mcp.manifest.json`, the package root, and the parent
(workspace) root; `.filter(Boolean)` drops the unset override.  `path.join`
is modelled as separator concatenation (its `..` normalization affects
neither the order nor which file each candidate denotes). -/
def manifestCandidates (envPath : Option String) (cwd pkgRoot : String) : List String :=
  (match envPath with
   | some p => [p]
   | none => []) ++
  [cwd ++ "/mcp.manifest.json",
   pkgRoot ++ "/mcp.manifest.json",
   pkgRoot ++ "/../mcp.manifest.json"]

/-- The candidate loop of `loadManifest`: `tryRead` each candidate in order
(read + `JSON.parse`, both modelled by `fs`; either failing makes the
candidate a miss) and stop at the first hit.  Returns the consulted paths in
order and the winning `(path, json)` if any. -/
def searchManifest (fs : String → Option JVal) :
    List String → List String × Option (String × JVal)
  | [] => ([], none)
  | c :: cs =>
    match fs c with
    | some j => ([c], some (c, j))
    | none =>
      let p := searchManifest fs cs
      (c :: p.1, p.2)

/-- The fatal error message when no candidate matched:
`Manifest not found. Checked:` followed by one `- <path>` line per checked
candidate. -/
def manifestNotFoundMessage (cands : List String) : String :=
  "Manifest not found. Checked:\n"
    ++ String.intercalate "\n" (cands.map (fun c => "- " ++ c))

/-- `loadManifest`'s resolution: build the candidates, try them in order,
first match wins; none found throws listing every checked path. -/
def loadManifestResolve (fs : String → Option JVal) (envPath : Option String)
    (cwd pkgRoot : String) : Except String (String × JVal) :=
  match (searchManifest fs (manifestCandidates envPath cwd pkgRoot)).2 with
  | some hit => .ok hit
  | none => .error (manifestNotFoundMessage (manifestCandidates envPath cwd pkgRoot))

theorem searchManifest_first_hit (fs : String → Option JVal) (v : JVal) :
    ∀ (cands : List String) (k : Nat), k < cands.length →
      (∀ j, j < k → fs (cands.getD j "") = none) →
      fs (cands.getD k "") = some v →
      searchManifest fs cands = (cands.take (k + 1), some (cands.getD k "", v)) := by
  intro cands
  induction cands with
  | nil => intro k hk; exact absurd hk (by simp)
  | cons c cs ih =>
    intro k hk hbefore hhit
    cases k with
    | zero =>
      simp only [List.getD_cons_zero] at hhit
      simp [searchManifest, hhit]
    | succ j =>
      have hc : fs c = none := by
        have := hbefore 0 (by omega)
        simpa using this
      simp only [searchManifest, hc]
      have hih := ih j (by simpa using hk)
        (fun i hi => by simpa using hbefore (i + 1) (by omega))
        (by simpa using hhit)
      rw [hih]
      simp

theorem searchManifest_all_miss (fs : String → Option JVal) :
    ∀ (cands : List String), (∀ c ∈ cands, fs c = none) →
      searchManifest fs cands = (cands, none) := by
  intro cands
  induction cands with
  | nil => intro _; rfl
  | cons c cs ih =>
    intro hmiss
    have hc : fs c = none := hmiss c (by simp)
    simp only [searchManifest, hc]
    rw [ih (fun x hx => hmiss x (by simp [hx]))]

/-- C9.  `loadManifest` tries the candidates in the order explicit override →
CWD → package root → parent/workspace root (the unset override is dropped);
the first candidate that reads and parses wins, and the paths consulted stop
exactly there (later candidates are never read); if every candidate misses,
it throws a fatal error whose message lists every checked path. -/
theorem loadManifest_resolution (fs : String → Option JVal)
    (envPath : Option String) (cwd pkgRoot : String) :
    manifestCandidates envPath cwd pkgRoot
      = envPath.toList ++ [cwd ++ "/mcp.manifest.json",
          pkgRoot ++ "/mcp.manifest.json", pkgRoot ++ "/../mcp.manifest.json"] ∧
    (∀ (v : JVal) (k : Nat), k < (manifestCandidates envPath cwd pkgRoot).length →
      (∀ j, j < k → fs ((manifestCandidates envPath cwd pkgRoot).getD j "") = none) →
      fs ((manifestCandidates envPath cwd pkgRoot).getD k "") = some v →
      loadManifestResolve fs envPath cwd pkgRoot
        = .ok ((manifestCandidates envPath cwd pkgRoot).getD k "", v) ∧
      (searchManifest fs (manifestCandidates envPath cwd pkgRoot)).1
        = (manifestCandidates envPath cwd pkgRoot).take (k + 1)) ∧
    ((∀ c ∈ manifestCandidates envPath cwd pkgRoot, fs c = none) →
      loadManifestResolve fs envPath cwd pkgRoot
        = .error (manifestNotFoundMessage (manifestCandidates envPath cwd pkgRoot)) ∧
      (searchManifest fs (manifestCandidates envPath cwd pkgRoot)).1
        = manifestCandidates envPath cwd pkgRoot) := by
  refine ⟨?_, ?_, ?_⟩
  · cases envPath with
    | none => rfl
    | some p => rfl
  · intro v k hk hbefore hhit
    have h := searchManifest_first_hit fs v (manifestCandidates envPath cwd pkgRoot)
      k hk hbefore hhit
    constructor
    · unfold loadManifestResolve
      rw [h]
    · rw [h]
  · intro hmiss
    have h := searchManifest_all_miss fs (manifestCandidates envPath cwd pkgRoot) hmiss
    constructor
    · unfold loadManifestResolve
      rw [h]
    · rw [h]

/-- Closed instance for `loadManifest_resolution`: the override and CWD miss,
the package root hits; the winner is the package-root path after exactly
three consultations. -/
theorem loadManifest_resolution_witness :
    (∀ j, j < 2 →
      (if (manifestCandidates (some "/env/m.json") "/cwd" "/pkg").getD j ""
          = "/pkg/mcp.manifest.json" then some JVal.null else none) = none) ∧
    loadManifestResolve
        (fun s => if s = "/pkg/mcp.manifest.json" then some JVal.null else none)
        (some "/env/m.json") "/cwd" "/pkg"
      = .ok ("/pkg/mcp.manifest.json", JVal.null) ∧
    (searchManifest
        (fun s => if s = "/pkg/mcp.manifest.json" then some JVal.null else none)
        (manifestCandidates (some "/env/m.json") "/cwd" "/pkg")).1
      = ["/env/m.json", "/cwd/mcp.manifest.json", "/pkg/mcp.manifest.json"] := by
  have hbefore : ∀ j, j < 2 →
      (fun s => if s = "/pkg/mcp.manifest.json" then some JVal.null else none)
        ((manifestCandidates (some "/env/m.json") "/cwd" "/pkg").getD j "") = none := by
    intro j hj
    rcases (show j = 0 ∨ j = 1 by omega) with rfl | rfl
    · rfl
    · rfl
  have h := (loadManifest_resolution
    (fun s => if s = "/pkg/mcp.manifest.json" then some JVal.null else none)
    (some "/env/m.json") "/cwd" "/pkg").2.1 JVal.null 2 (by decide) hbefore rfl
  exact ⟨hbefore, h.1, h.2⟩

end McpServer
